import Mathlib

/-!
# Verification of the `onions` vanity-address generator

A shallow embedding of the `onions` repository (Go): derivation of Tor
onion identifiers from RSA and ed25519 key material, the private-key
export formats, the dictionary filter, the search-worker loop, the
command-line arbitration and the result sink.

Bytes are modelled as `Nat` with the side condition `< 256`; byte strings
as `List Nat`; Go strings as `List Char`.  The cryptographic hash
primitives (SHA-1, SHA3-256, SHA-512) and the DER marshalling of RSA keys
are external library calls, treated as black boxes: the definitions take
them as function parameters and the theorems assume only their output
shape (length and byte range).
-/

namespace Onions

/-- ASCII upper-casing of one character, the fragment of Go's
`strings.ToUpper` relevant to this program (dictionary words and base-32
output are ASCII). -/
def toUpperGo (c : Char) : Char :=
  if 'a' ≤ c ∧ c ≤ 'z' then Char.ofNat (c.toNat - 32) else c

/-- ASCII lower-casing of one character, the fragment of Go's
`strings.ToLower` relevant to this program. -/
def toLowerGo (c : Char) : Char :=
  if 'A' ≤ c ∧ c ≤ 'Z' then Char.ofNat (c.toNat + 32) else c

/-- The standard base-32 alphabet used by Go's `base32.StdEncoding`. -/
def b32chars : List Char := "ABCDEFGHIJKLMNOPQRSTUVWXYZ234567".data

/-- Character of one 5-bit group. -/
def b32c (v : Nat) : Char := b32chars.getD v 'A'

/-- Value of one base-32 character (`none` when the character is not in
the alphabet), as Go's decode table. -/
def b32val (c : Char) : Option Nat :=
  let i := b32chars.findIdx (fun x => x == c)
  if i < 32 then some i else none

/-- The 8 five-bit digits of a full 5-byte group, as extracted by the
shift/mask steps of Go's `base32` encoder. -/
def b32digits (b0 b1 b2 b3 b4 : Nat) : List Nat :=
  [b0 / 8,
   b0 % 8 * 4 + b1 / 64,
   b1 / 2 % 32,
   b1 % 2 * 16 + b2 / 16,
   b2 % 16 * 2 + b3 / 128,
   b3 / 4 % 32,
   b3 % 4 * 8 + b4 / 32,
   b4 % 32]

/-- Number of data characters Go's `base32` encoder emits for a final
partial group of `r` bytes (the rest of the 8-character quantum is `=`
padding). -/
def b32TailDigits (r : Nat) : Nat :=
  match r with
  | 1 => 2
  | 2 => 4
  | 3 => 5
  | _ => 7

/-- Encoding of a final partial group: Go zero-pads the missing source
bytes, emits `b32TailDigits` characters and pads with `=` to a quantum. -/
def b32EncodeTail (l : List Nat) : List Char :=
  let p := l ++ List.replicate (5 - l.length) 0
  let ds := b32digits (p.getD 0 0) (p.getD 1 0) (p.getD 2 0) (p.getD 3 0) (p.getD 4 0)
  (ds.take (b32TailDigits l.length)).map b32c ++
    List.replicate (8 - b32TailDigits l.length) '='

/-- Go's `base32.StdEncoding.EncodeToString` on a byte string: each full
5-byte group becomes 8 alphabet characters; a final partial group is
padded. -/
def b32EncodeGo : List Nat → List Char
  | b0 :: b1 :: b2 :: b3 :: b4 :: rest =>
    (b32digits b0 b1 b2 b3 b4).map b32c ++ b32EncodeGo rest
  | [] => []
  | l => b32EncodeTail l

/-- Reassembly of the 5 bytes of a quantum from its 8 digit values, as
Go's `base32` decoder. -/
def b32bytes (d0 d1 d2 d3 d4 d5 d6 d7 : Nat) : List Nat :=
  [d0 * 8 + d1 / 4,
   d1 % 4 * 64 + d2 * 2 + d3 / 16,
   d3 % 16 * 16 + d4 / 2,
   d4 % 2 * 128 + d5 * 4 + d6 / 8,
   d6 % 8 * 32 + d7]

/-- Byte reassembly over a list of digit values, full quanta only. -/
def b32ValsToBytes : List Nat → List Nat
  | d0 :: d1 :: d2 :: d3 :: d4 :: d5 :: d6 :: d7 :: rest =>
    b32bytes d0 d1 d2 d3 d4 d5 d6 d7 ++ b32ValsToBytes rest
  | _ => []

/-- Standard base-32 decoding of an unpadded string (Go's
`base32.StdEncoding.DecodeString` restricted to inputs made of full,
unpadded quanta, the only shape this program produces for identifiers):
every character must be in the alphabet and the length a multiple of 8. -/
def b32DecodeGo (cs : List Char) : Option (List Nat) :=
  if cs.length % 8 = 0 then
    (cs.mapM b32val).map b32ValsToBytes
  else none

/-- The standard base-64 alphabet used by Go's `base64.StdEncoding`. -/
def b64chars : List Char :=
  "ABCDEFGHIJKLMNOPQRSTUVWXYZabcdefghijklmnopqrstuvwxyz0123456789+/".data

/-- Character of one 6-bit group. -/
def b64c (v : Nat) : Char := b64chars.getD v 'A'

/-- Value of one base-64 character (`none` when not in the alphabet). -/
def b64val (c : Char) : Option Nat :=
  let i := b64chars.findIdx (fun x => x == c)
  if i < 64 then some i else none

/-- Go's `base64.StdEncoding.EncodeToString`: each full 3-byte group
becomes 4 characters; a final group of 2 or 1 bytes is zero-padded and
completed with `=`. -/
def b64EncodeGo : List Nat → List Char
  | b0 :: b1 :: b2 :: rest =>
    b64c (b0 / 4) :: b64c (b0 % 4 * 16 + b1 / 16) ::
    b64c (b1 % 16 * 4 + b2 / 64) :: b64c (b2 % 64) :: b64EncodeGo rest
  | [b0, b1] =>
    [b64c (b0 / 4), b64c (b0 % 4 * 16 + b1 / 16), b64c (b1 % 16 * 4), '=']
  | [b0] =>
    [b64c (b0 / 4), b64c (b0 % 4 * 16), '=', '=']
  | [] => []

/-- Go's `base64.StdEncoding.DecodeString`: quanta of 4 characters; `=`
padding is accepted only in the final quantum, as one (`xxx=`, two bytes)
or two (`xx==`, one byte) trailing characters. -/
def b64DecodeGo : List Char → Option (List Nat)
  | [] => some []
  | c0 :: c1 :: c2 :: c3 :: rest =>
    match b64val c0, b64val c1 with
    | some v0, some v1 =>
      if c2 = '=' then
        if c3 = '=' ∧ rest = [] then some [v0 * 4 + v1 / 16] else none
      else
        match b64val c2 with
        | some v2 =>
          if c3 = '=' then
            if rest = [] then some [v0 * 4 + v1 / 16, v1 % 16 * 16 + v2 / 4]
            else none
          else
            match b64val c3 with
            | some v3 =>
              (b64DecodeGo rest).map
                (fun bs => (v0 * 4 + v1 / 16) :: (v1 % 16 * 16 + v2 / 4) ::
                           (v2 % 4 * 64 + v3) :: bs)
            | none => none
        | none => none
    | _, _ => none
  | _ => none

/-! ## Key-format derivations (`onions.go` / `part_000`) -/

/-- The onion identifier of an RSA key, from `randRsaResult` (and the
older `RandOnion`): base-32 of the first half of the SHA-1 hash of the
DER-encoded public key.  `sha1` stands for `sha1.Sum` and `derPub` for
the already-computed `asn1.Marshal(key.PublicKey)` bytes; the slice
`hash[:len(hash)/2]` is `take (length / 2)`. -/
def rsaOnionOf (sha1 : List Nat → List Nat) (derPub : List Nat) : List Char :=
  let hash := sha1 derPub
  b32EncodeGo (hash.take (hash.length / 2))

/-- The exported RSA private key, from `(*rsaResult).PrivateKey`:
`"RSA1024:" + base64(MarshalPKCS1PrivateKey(key))`.  `marshal` stands for
`x509.MarshalPKCS1PrivateKey`. -/
def rsaPrivateKeyExport {K : Type} (marshal : K → List Nat) (k : K) : List Char :=
  "RSA1024:".data ++ b64EncodeGo (marshal k)

/-- The byte string hashed by `ed25519Checkdigits`:
`".onion checksum" || publicKey || 0x03`. -/
def checksumInput (pub : List Nat) : List Nat :=
  ".onion checksum".data.map Char.toNat ++ pub ++ [3]

/-- `ed25519Checkdigits`: first 2 bytes of
`sha3.Sum256(".onion checksum" || publicKey || 0x03)`. -/
def ed25519Checkdigits (sha3 : List Nat → List Nat) (pub : List Nat) : List Nat :=
  (sha3 (checksumInput pub)).take 2

/-- `ed25519ToOnion`: base-32 of `publicKey || checkdigits || 0x03`. -/
def ed25519ToOnion (sha3 : List Nat → List Nat) (pub : List Nat) : List Char :=
  b32EncodeGo (pub ++ ed25519Checkdigits sha3 pub ++ [3])

/-- The clamping steps of `(*ed25519Result).PrivateKey` on the 64-byte
SHA-512 expansion `h`: `h[0] &= 248`, `h[31] &= 127`, `h[31] |= 64`. -/
def clampEd (h : List Nat) : List Nat :=
  let h1 := h.set 0 (h.getD 0 0 &&& 248)
  let h2 := h1.set 31 (h1.getD 31 0 &&& 127)
  h2.set 31 (h2.getD 31 0 ||| 64)

/-- `(*ed25519Result).PrivateKey`: SHA-512-expand the first 32 bytes of
the private key (the seed), clamp, base-64 encode and tag.  `sha512`
stands for `sha512.Sum512`. -/
def ed25519PrivateKeyExport (sha512 : List Nat → List Nat)
    (priv : List Nat) : List Char :=
  "ED25519-V3:".data ++ b64EncodeGo (clampEd (sha512 (priv.take 32)))

/-! ## Dictionary filter, search loop, CLI, sink -/

/-- Go's `strings.HasPrefix` on `List Char`. -/
def startsWithGo (s w : List Char) : Bool := s.take w.length == w

/-- The dictionary filter loop of `main`: `for _, word := range words
{ if len(word) >= minSize { filtered = append(filtered,
strings.ToUpper(word)) } }`, as a left fold over the word list. -/
def filterWords (words : List (List Char)) (minSize : Nat) : List (List Char) :=
  words.foldl
    (fun filtered word =>
      if minSize ≤ word.length then filtered ++ [word.map toUpperGo]
      else filtered)
    []

/-- One candidate's pass through the inner word loop of `Search` (both
versions): scan the words in order; on the first word that is a prefix of
the onion, send the result `r` on the channel and `break`.  The returned
list is the sequence of values sent for this candidate. -/
def searchIter {α : Type} (r : α) (onion : List Char) :
    List (List Char) → List α
  | [] => []
  | w :: rest =>
    if startsWithGo onion w then [r] else searchIter r onion rest

/-- The dictionary-source arbitration of `main`: if both `--file` and
`--url` are empty, print the usage message and return (`none`, no search
starts); otherwise read from the file when it is nonempty, else from the
URL.  `some (Sum.inl f)` means the search starts with the file source,
`some (Sum.inr u)` with the URL source. -/
def dictArbitration (dictFile dictUrl : List Char) :
    Option (List Char ⊕ List Char) :=
  if dictFile.length = 0 ∧ dictUrl.length = 0 then none
  else if 0 < dictFile.length then some (Sum.inl dictFile)
  else if 0 < dictUrl.length then some (Sum.inr dictUrl)
  else none

/-- The `--key` dispatch of `main` (`part_000`): lower-case the flag
value; `"ed25519"` selects the ed25519 generator, `"rsa"` the RSA one,
anything else is `log.Fatal`. -/
inductive KeyChoice : Type
  | rsa
  | ed25519
  | fatal
  deriving DecidableEq, Repr

/-- `keyType = strings.ToLower(keyType)` followed by the if/else chain of
`main`. -/
def chooseKeyFunc (keyType : List Char) : KeyChoice :=
  let k := keyType.map toLowerGo
  if k = "ed25519".data then KeyChoice.ed25519
  else if k = "rsa".data then KeyChoice.rsa
  else KeyChoice.fatal

/-- Observable effect of one iteration of the result-sink loop of `main`
(`part_000`): the line printed, the file created and its content, and
whether `f.Sync()` was called on it. -/
structure SinkEffect : Type where
  printed : List Char
  filePath : List Char
  fileContent : List Char
  synced : Bool
  deriving DecidableEq, Repr

/-- The sink-loop body of `main` (`part_000`): lower-case the onion,
print it, create `./keys/<onion>.onion`, write the private-key string,
sync. -/
def resultSink (onion privateKey : List Char) : SinkEffect :=
  let lower := onion.map toLowerGo
  { printed := lower
    filePath := "./keys/".data ++ lower ++ ".onion".data
    fileContent := privateKey
    synced := true }

/-- The send of the older `onions.go` `Search`: the enqueued `Result`
carries the key and the already lower-cased onion
(`results <- &Result{key, strings.ToLower(onion)}`). -/
def searchEmitV1 {K : Type} (key : K) (onion : List Char) : K × List Char :=
  (key, onion.map toLowerGo)

/-! ## Key-generation failure model

`randRsaResult` executes `key, _ := rsa.GenerateKey(rand.Reader, 1024)`:
the error is discarded.  When generation fails, Go's `rsa.GenerateKey`
returns a nil key, and the next statement `asn1.Marshal(key.PublicKey)`
dereferences the nil pointer — a run-time panic that terminates the
worker (modelled as `Except.error`).  `randEd25519Result` likewise
discards the error of `ed25519.GenerateKey`; there the nil public key is
a zero-length slice, the appends in `ed25519ToOnion` still succeed, and a
`Result` holding nil key material is constructed. -/

/-- Outcome of a `GenerateKey` call: a key, or an error (in which case Go
returns nil key material). -/
inductive KeyGenOutcome (K : Type) : Type
  | ok (k : K)
  | err

/-- `randRsaResult` under an explicit generation outcome: on success the
onion is derived from the key; on failure the nil dereference panics. -/
def randRsaResultGo {K : Type} (outcome : KeyGenOutcome K)
    (sha1 : List Nat → List Nat) (derPubOf : K → List Nat) :
    Except Unit (K × List Char) :=
  match outcome with
  | KeyGenOutcome.ok k => Except.ok (k, rsaOnionOf sha1 (derPubOf k))
  | KeyGenOutcome.err => Except.error ()

/-- `randEd25519Result` under an explicit generation outcome: on failure
the nil `pub` and `pri` are zero-length byte strings and a result is
still built from them. -/
def randEd25519ResultGo (outcome : KeyGenOutcome (List Nat × List Nat))
    (sha3 : List Nat → List Nat) : List Nat × List Char :=
  match outcome with
  | KeyGenOutcome.ok pk => (pk.2, ed25519ToOnion sha3 pk.1)
  | KeyGenOutcome.err => ([], ed25519ToOnion sha3 [])

/-! ## Decoding the exported RSA private key

Modelled from the spec: the repository stores but never re-reads the
tagged export, and the round-trip law of §3/§8 describes the inverse
procedure — strip the `RSA1024:` tag, base-64 decode, DER-decode with the
inverse of `x509.MarshalPKCS1PrivateKey` (`parse`, a black box assumed
inverse to `marshal`). -/
def decodeRsaExport {K : Type} (parse : List Nat → Option K)
    (s : List Char) : Option K :=
  if s.take 8 = "RSA1024:".data then (b64DecodeGo (s.drop 8)).bind parse
  else none

/-! ## Base-32 codec lemmas -/

theorem b32val_b32c : ∀ v : Nat, v < 32 → b32val (b32c v) = some v := by
  decide

theorem b32c_mem : ∀ v : Nat, v < 32 → b32c v ∈ b32chars := by
  decide

theorem b32bytes_b32digits (b0 b1 b2 b3 b4 : Nat)
    (h1 : b1 < 256) (h2 : b2 < 256) (h3 : b3 < 256) (h4 : b4 < 256) :
    b32bytes (b0 / 8) (b0 % 8 * 4 + b1 / 64) (b1 / 2 % 32) (b1 % 2 * 16 + b2 / 16)
      (b2 % 16 * 2 + b3 / 128) (b3 / 4 % 32) (b3 % 4 * 8 + b4 / 32) (b4 % 32)
      = [b0, b1, b2, b3, b4] := by
  simp only [b32bytes, List.cons.injEq, and_true]
  exact ⟨by omega, by omega, by omega, by omega, by omega⟩

/-- Over `n` full 5-byte groups of bytes, the encoder emits `8 * n`
alphabet characters whose values decode back to the input bytes. -/
theorem b32_encode_blocks : ∀ (n : Nat) (l : List Nat), l.length = 5 * n →
    (∀ b ∈ l, b < 256) →
    (b32EncodeGo l).length = 8 * n ∧
    (∀ c ∈ b32EncodeGo l, c ∈ b32chars) ∧
    ∃ vs, (b32EncodeGo l).mapM b32val = some vs ∧ b32ValsToBytes vs = l := by
  intro n
  induction n with
  | zero =>
    intro l hl _
    have : l = [] := List.eq_nil_of_length_eq_zero (by omega)
    subst this
    exact ⟨rfl, by simp [b32EncodeGo], [], rfl, rfl⟩
  | succ m ih =>
    intro l hl hb
    match l, hl with
    | b0 :: b1 :: b2 :: b3 :: b4 :: rest, hl =>
      have hrest : rest.length = 5 * m := by
        simp only [List.length_cons] at hl; omega
      have hb0 : b0 < 256 := hb b0 (by simp)
      have hb1 : b1 < 256 := hb b1 (by simp)
      have hb2 : b2 < 256 := hb b2 (by simp)
      have hb3 : b3 < 256 := hb b3 (by simp)
      have hb4 : b4 < 256 := hb b4 (by simp)
      have hbrest : ∀ b ∈ rest, b < 256 := fun b hm => hb b (by simp [hm])
      obtain ⟨ihlen, ihmem, vs, ihmap, ihbytes⟩ := ih rest hrest hbrest
      have henc : b32EncodeGo (b0 :: b1 :: b2 :: b3 :: b4 :: rest) =
          b32c (b0 / 8) :: b32c (b0 % 8 * 4 + b1 / 64) :: b32c (b1 / 2 % 32) ::
          b32c (b1 % 2 * 16 + b2 / 16) :: b32c (b2 % 16 * 2 + b3 / 128) ::
          b32c (b3 / 4 % 32) :: b32c (b3 % 4 * 8 + b4 / 32) :: b32c (b4 % 32) ::
          b32EncodeGo rest := by
        simp [b32EncodeGo, b32digits]
      refine ⟨?_, ?_, ?_⟩
      · rw [henc]; simp only [List.length_cons, ihlen]; omega
      · rw [henc]
        intro c hc
        simp only [List.mem_cons] at hc
        rcases hc with h | h | h | h | h | h | h | h | h
        all_goals first
          | (subst h; exact b32c_mem _ (by omega))
          | exact ihmem c h
      · refine ⟨(b0 / 8) :: (b0 % 8 * 4 + b1 / 64) :: (b1 / 2 % 32) ::
          (b1 % 2 * 16 + b2 / 16) :: (b2 % 16 * 2 + b3 / 128) ::
          (b3 / 4 % 32) :: (b3 % 4 * 8 + b4 / 32) :: (b4 % 32) :: vs, ?_, ?_⟩
        · rw [henc]
          simp only [List.mapM_cons, ihmap,
            b32val_b32c _ (show b0 / 8 < 32 by omega),
            b32val_b32c _ (show b0 % 8 * 4 + b1 / 64 < 32 by omega),
            b32val_b32c _ (show b1 / 2 % 32 < 32 by omega),
            b32val_b32c _ (show b1 % 2 * 16 + b2 / 16 < 32 by omega),
            b32val_b32c _ (show b2 % 16 * 2 + b3 / 128 < 32 by omega),
            b32val_b32c _ (show b3 / 4 % 32 < 32 by omega),
            b32val_b32c _ (show b3 % 4 * 8 + b4 / 32 < 32 by omega),
            b32val_b32c _ (show b4 % 32 < 32 by omega)]
          rfl
        · show b32ValsToBytes _ = _
          rw [b32ValsToBytes, ihbytes, b32bytes_b32digits b0 b1 b2 b3 b4 hb1 hb2 hb3 hb4]
          rfl

/-- Base-32 round trip on inputs made of full groups: decoding the
encoding recovers the bytes. -/
theorem b32_roundtrip (l : List Nat) (h5 : l.length % 5 = 0)
    (hb : ∀ b ∈ l, b < 256) : b32DecodeGo (b32EncodeGo l) = some l := by
  obtain ⟨len, mem, vs, hmap, hbytes⟩ :=
    b32_encode_blocks (l.length / 5) l (by omega) hb
  rw [b32DecodeGo, if_pos (by omega), hmap]
  simp [hbytes]

/-- Length of the encoding of full groups. -/
theorem b32_encode_length (l : List Nat) (h5 : l.length % 5 = 0)
    (hb : ∀ b ∈ l, b < 256) :
    (b32EncodeGo l).length = 8 * (l.length / 5) :=
  (b32_encode_blocks (l.length / 5) l (by omega) hb).1

/-- Every character of the encoding of full groups is in the base-32
alphabet. -/
theorem b32_encode_mem (l : List Nat) (h5 : l.length % 5 = 0)
    (hb : ∀ b ∈ l, b < 256) :
    ∀ c ∈ b32EncodeGo l, c ∈ b32chars :=
  (b32_encode_blocks (l.length / 5) l (by omega) hb).2.1

/-! ## Base-64 codec lemmas -/

theorem b64val_b64c : ∀ v : Nat, v < 64 → b64val (b64c v) = some v := by
  decide

theorem b64c_ne_pad : ∀ v : Nat, v < 64 → b64c v ≠ '=' := by
  decide

/-- Base-64 round trip: decoding the encoding recovers the bytes, for
every byte-length residue (full quanta and both padded tails). -/
theorem b64_roundtrip (l : List Nat) :
    (∀ b ∈ l, b < 256) → b64DecodeGo (b64EncodeGo l) = some l := by
  induction l using b64EncodeGo.induct with
  | case1 b0 b1 b2 rest ih =>
    intro hb
    have hb0 : b0 < 256 := hb b0 (by simp)
    have hb1 : b1 < 256 := hb b1 (by simp)
    have hb2 : b2 < 256 := hb b2 (by simp)
    have e0 : b64val (b64c (b0 / 4)) = some (b0 / 4) :=
      b64val_b64c _ (by omega)
    have e1 : b64val (b64c (b0 % 4 * 16 + b1 / 16)) = some (b0 % 4 * 16 + b1 / 16) :=
      b64val_b64c _ (by omega)
    have e2 : b64val (b64c (b1 % 16 * 4 + b2 / 64)) = some (b1 % 16 * 4 + b2 / 64) :=
      b64val_b64c _ (by omega)
    have e3 : b64val (b64c (b2 % 64)) = some (b2 % 64) :=
      b64val_b64c _ (by omega)
    have ne2 : b64c (b1 % 16 * 4 + b2 / 64) ≠ '=' := b64c_ne_pad _ (by omega)
    have ne3 : b64c (b2 % 64) ≠ '=' := b64c_ne_pad _ (by omega)
    have ihr := ih (fun b hm => hb b (by simp [hm]))
    simp only [b64EncodeGo, b64DecodeGo, e0, e1, e2, e3, ne2, ne3,
      if_false, ihr, Option.map_some']
    simp only [Option.some.injEq, List.cons.injEq]
    refine ⟨by omega, by omega, by omega, trivial⟩
  | case2 b0 b1 =>
    intro hb
    have hb0 : b0 < 256 := hb b0 (by simp)
    have hb1 : b1 < 256 := hb b1 (by simp)
    have e0 : b64val (b64c (b0 / 4)) = some (b0 / 4) :=
      b64val_b64c _ (by omega)
    have e1 : b64val (b64c (b0 % 4 * 16 + b1 / 16)) = some (b0 % 4 * 16 + b1 / 16) :=
      b64val_b64c _ (by omega)
    have e2 : b64val (b64c (b1 % 16 * 4)) = some (b1 % 16 * 4) :=
      b64val_b64c _ (by omega)
    have ne2 : b64c (b1 % 16 * 4) ≠ '=' := b64c_ne_pad _ (by omega)
    simp only [b64EncodeGo, b64DecodeGo, e0, e1, e2, ne2, if_false, if_true]
    simp only [Option.some.injEq, List.cons.injEq, and_true]
    exact ⟨by omega, by omega⟩
  | case3 b0 =>
    intro hb
    have hb0 : b0 < 256 := hb b0 (by simp)
    have e0 : b64val (b64c (b0 / 4)) = some (b0 / 4) :=
      b64val_b64c _ (by omega)
    have e1 : b64val (b64c (b0 % 4 * 16)) = some (b0 % 4 * 16) :=
      b64val_b64c _ (by omega)
    simp only [b64EncodeGo, b64DecodeGo, e0, e1, and_self, if_true]
    simp only [Option.some.injEq, List.cons.injEq, and_true]
    omega
  | case4 =>
    intro _
    rfl

/-! ## Claim theorems -/

/-- C1: For every legacy (RSA) candidate, the derived Identifier equals
the base-32 encoding (standard alphabet, uppercase) of the first 10 bytes
of the SHA-1 hash of the DER encoding of the RSA public key, is exactly
16 characters over the base-32 alphabet, and two derivations from
identical public key bytes yield identical Identifiers. -/
theorem c1_rsa_identifier (sha1 : List Nat → List Nat) (der : List Nat)
    (hlen : (sha1 der).length = 20)
    (hb : ∀ b ∈ sha1 der, b < 256) :
    rsaOnionOf sha1 der = b32EncodeGo ((sha1 der).take 10) ∧
    (rsaOnionOf sha1 der).length = 16 ∧
    (∀ c ∈ rsaOnionOf sha1 der, c ∈ b32chars) ∧
    (∀ der2, der2 = der → rsaOnionOf sha1 der2 = rsaOnionOf sha1 der) := by
  have hdef : rsaOnionOf sha1 der = b32EncodeGo ((sha1 der).take 10) := by
    rw [rsaOnionOf, hlen]
  have htlen : ((sha1 der).take 10).length = 10 := by
    rw [List.length_take, hlen]; omega
  have htb : ∀ b ∈ (sha1 der).take 10, b < 256 :=
    fun b hm => hb b (List.mem_of_mem_take hm)
  refine ⟨hdef, ?_, ?_, fun der2 h => by rw [h]⟩
  · rw [hdef, b32_encode_length _ (by omega) htb, htlen]
  · rw [hdef]
    exact b32_encode_mem _ (by omega) htb

/-- C1 witness: the theorem applied to a concrete hash function and
public-key byte string. -/
theorem c1_rsa_identifier_witness :
    (rsaOnionOf (fun _ => List.replicate 20 0) [1, 2, 3]).length = 16 :=
  (c1_rsa_identifier (fun _ => List.replicate 20 0) [1, 2, 3]
    (by simp) (by simp)).2.1

/-- C2: For every modern (ed25519) candidate, the Identifier is the
base-32 encoding of the 35-byte `publicKey(32) || checksum(2) || 0x03`,
where the checksum is the first 2 bytes of
`SHA3-256(".onion checksum" || publicKey || 0x03)`; it is exactly 56
characters, decodes to exactly those 35 bytes, the decoded middle 2 bytes
satisfy the checksum equation, and the last decoded byte is `0x03`. -/
theorem c2_ed25519_identifier (sha3 : List Nat → List Nat) (pub : List Nat)
    (hpub : pub.length = 32) (hpb : ∀ b ∈ pub, b < 256)
    (hsha : (sha3 (checksumInput pub)).length = 32)
    (hsb : ∀ b ∈ sha3 (checksumInput pub), b < 256) :
    ed25519ToOnion sha3 pub =
      b32EncodeGo (pub ++ ed25519Checkdigits sha3 pub ++ [3]) ∧
    (ed25519ToOnion sha3 pub).length = 56 ∧
    b32DecodeGo (ed25519ToOnion sha3 pub) =
      some (pub ++ ed25519Checkdigits sha3 pub ++ [3]) ∧
    (pub ++ ed25519Checkdigits sha3 pub ++ [3]).length = 35 ∧
    ((pub ++ ed25519Checkdigits sha3 pub ++ [3]).drop 32).take 2 =
      (sha3 (checksumInput pub)).take 2 ∧
    (pub ++ ed25519Checkdigits sha3 pub ++ [3]).getLast? = some 3 := by
  have hck : ed25519Checkdigits sha3 pub = (sha3 (checksumInput pub)).take 2 :=
    rfl
  have hcklen : (ed25519Checkdigits sha3 pub).length = 2 := by
    rw [hck, List.length_take, hsha]; omega
  have hckb : ∀ b ∈ ed25519Checkdigits sha3 pub, b < 256 :=
    fun b hm => hsb b (List.mem_of_mem_take hm)
  have hlen : (pub ++ ed25519Checkdigits sha3 pub ++ [3]).length = 35 := by
    simp only [List.length_append, List.length_cons, List.length_nil,
      hpub, hcklen]
  have hbytes : ∀ b ∈ pub ++ ed25519Checkdigits sha3 pub ++ [3], b < 256 := by
    intro b hm
    simp only [List.append_assoc, List.mem_append, List.mem_cons,
      List.not_mem_nil, or_false] at hm
    rcases hm with h | h | h
    · exact hpb b h
    · exact hckb b h
    · omega
  refine ⟨rfl, ?_, ?_, hlen, ?_, ?_⟩
  · show (b32EncodeGo _).length = 56
    rw [b32_encode_length _ (by omega) hbytes, hlen]
  · exact b32_roundtrip _ (by omega) hbytes
  · rw [List.append_assoc, List.drop_append_of_le_length (by omega),
      List.drop_of_length_le (by omega), List.nil_append,
      List.take_append_of_le_length (by omega), hck,
      List.take_take]
    simp [List.take_of_length_le, hcklen, hck]
  · rw [List.getLast?_concat]

/-- C2 witness: the theorem applied to a concrete hash function and
public key. -/
theorem c2_ed25519_identifier_witness :
    (ed25519ToOnion (fun _ => List.replicate 32 7) (List.replicate 32 1)).length = 56 :=
  (c2_ed25519_identifier (fun _ => List.replicate 32 7) (List.replicate 32 1)
    (by simp) (by simp) (by simp) (by simp)).2.1

theorem getD_mem_of_lt (l : List Nat) (i : Nat) (hi : i < l.length) :
    l.getD i 0 ∈ l := by
  rw [List.getD_eq_getElem?_getD, List.getElem?_eq_getElem hi]
  exact List.getElem_mem hi

set_option maxRecDepth 20000 in
theorem byte_land248_mod8 : ∀ b : Nat, b < 256 → (b &&& 248) % 8 = 0 := by
  decide

set_option maxRecDepth 20000 in
theorem byte_land248_div8 : ∀ b : Nat, b < 256 → (b &&& 248) / 8 = b / 8 := by
  decide

set_option maxRecDepth 20000 in
theorem byte_clamp31_lt128 : ∀ b : Nat, b < 256 → (b &&& 127) ||| 64 < 128 := by
  decide

set_option maxRecDepth 20000 in
theorem byte_clamp31_ge64 : ∀ b : Nat, b < 256 → 64 ≤ (b &&& 127) ||| 64 := by
  decide

theorem clampEd_getD_zero (h : List Nat) (hl : h.length = 64) :
    (clampEd h).getD 0 0 = h.getD 0 0 &&& 248 := by
  simp only [clampEd, List.getD, List.getElem?_set, List.length_set]
  simp [hl]

theorem clampEd_getD_31 (h : List Nat) (hl : h.length = 64) :
    (clampEd h).getD 31 0 = (h.getD 31 0 &&& 127) ||| 64 := by
  simp only [clampEd, List.getD, List.getElem?_set, List.length_set]
  simp [hl]

theorem clampEd_getD_other (h : List Nat) (i : Nat)
    (h0 : i ≠ 0) (h31 : i ≠ 31) :
    (clampEd h).getD i 0 = h.getD i 0 := by
  simp only [clampEd, List.getD, List.getElem?_set, List.length_set]
  simp [Ne.symm h0, Ne.symm h31]

/-- C3: the modern private-key export is the tag `ED25519-V3:` followed
by base-64 of the 64-byte SHA-512 expansion of the seed, with the first
32 bytes clamped (byte 0: lowest 3 bits cleared; byte 31: highest bit
cleared, second-highest set) and the last 32 bytes (`RH`) unmodified. -/
theorem c3_ed25519_private_export (sha512 : List Nat → List Nat)
    (priv : List Nat)
    (hlen : (sha512 (priv.take 32)).length = 64)
    (hb : ∀ b ∈ sha512 (priv.take 32), b < 256) :
    ed25519PrivateKeyExport sha512 priv =
      "ED25519-V3:".data ++ b64EncodeGo (clampEd (sha512 (priv.take 32))) ∧
    (clampEd (sha512 (priv.take 32))).length = 64 ∧
    (clampEd (sha512 (priv.take 32))).drop 32 = (sha512 (priv.take 32)).drop 32 ∧
    (clampEd (sha512 (priv.take 32))).getD 0 0 =
      (sha512 (priv.take 32)).getD 0 0 &&& 248 ∧
    (clampEd (sha512 (priv.take 32))).getD 31 0 =
      ((sha512 (priv.take 32)).getD 31 0 &&& 127) ||| 64 ∧
    (∀ i, i ≠ 0 → i ≠ 31 →
      (clampEd (sha512 (priv.take 32))).getD i 0 =
        (sha512 (priv.take 32)).getD i 0) ∧
    (clampEd (sha512 (priv.take 32))).getD 0 0 % 8 = 0 ∧
    (clampEd (sha512 (priv.take 32))).getD 0 0 / 8 =
      (sha512 (priv.take 32)).getD 0 0 / 8 ∧
    (clampEd (sha512 (priv.take 32))).getD 31 0 < 128 ∧
    64 ≤ (clampEd (sha512 (priv.take 32))).getD 31 0 := by
  set h := sha512 (priv.take 32) with hh
  have hb0 : h.getD 0 0 < 256 := hb _ (getD_mem_of_lt h 0 (by omega))
  have hb31 : h.getD 31 0 < 256 := hb _ (getD_mem_of_lt h 31 (by omega))
  refine ⟨rfl, ?_, ?_, clampEd_getD_zero h hlen, clampEd_getD_31 h hlen,
    fun i h0 h31 => clampEd_getD_other h i h0 h31, ?_, ?_, ?_, ?_⟩
  · simp [clampEd, hlen]
  · simp [clampEd, List.drop_set]
  · rw [clampEd_getD_zero h hlen]; exact byte_land248_mod8 _ hb0
  · rw [clampEd_getD_zero h hlen]; exact byte_land248_div8 _ hb0
  · rw [clampEd_getD_31 h hlen]; exact byte_clamp31_lt128 _ hb31
  · rw [clampEd_getD_31 h hlen]; exact byte_clamp31_ge64 _ hb31

/-- C3 witness: the theorem applied to a concrete expansion function and
private key. -/
theorem c3_ed25519_private_export_witness :
    (clampEd ((fun _ : List Nat => List.replicate 64 255) ([] : List Nat))).getD 31 0 < 128 :=
  (c3_ed25519_private_export (fun _ => List.replicate 64 255) []
    (by simp) (by simp)).2.2.2.2.2.2.2.2.1

/-- C4: decoding the exported tagged private-key string (strip the tag,
base-64 decode, DER-decode) reconstructs the exact key that produced the
Identifier, and re-deriving the Identifier from the reconstructed key
reproduces the Match's Identifier.  `parse` is the DER decoder, a black
box assumed inverse to `marshal` on the emitted key. -/
theorem c4_match_roundtrip {K : Type} (marshal : K → List Nat)
    (parse : List Nat → Option K) (sha1 : List Nat → List Nat)
    (derPubOf : K → List Nat) (k : K)
    (hinv : parse (marshal k) = some k)
    (hbytes : ∀ b ∈ marshal k, b < 256) :
    decodeRsaExport parse (rsaPrivateKeyExport marshal k) = some k ∧
    (∀ k2, decodeRsaExport parse (rsaPrivateKeyExport marshal k) = some k2 →
      rsaOnionOf sha1 (derPubOf k2) = rsaOnionOf sha1 (derPubOf k)) := by
  have hdec : decodeRsaExport parse (rsaPrivateKeyExport marshal k) = some k := by
    rw [decodeRsaExport, rsaPrivateKeyExport]
    rw [if_pos (by simp), List.drop_append_of_le_length (by simp),
      List.drop_of_length_le (by simp), List.nil_append,
      b64_roundtrip _ hbytes, Option.some_bind, hinv]
  refine ⟨hdec, fun k2 h2 => ?_⟩
  rw [hdec] at h2
  rw [Option.some.injEq] at h2
  rw [h2]

/-- C4 witness: the theorem applied at a concrete key whose DER encoding
exercises base-64 padding. -/
theorem c4_match_roundtrip_witness :
    decodeRsaExport some
      (rsaPrivateKeyExport (fun l : List Nat => l) [9, 8, 7, 250]) =
      some [9, 8, 7, 250] :=
  (c4_match_roundtrip (fun l : List Nat => l) some (fun _ => []) (fun l => l)
    [9, 8, 7, 250] rfl (by decide)).1

theorem filterWords_foldl (minSize : Nat) :
    ∀ (ws acc : List (List Char)),
      ws.foldl
        (fun filtered word =>
          if minSize ≤ word.length then filtered ++ [word.map toUpperGo]
          else filtered)
        acc
      = acc ++ (ws.filter (fun w => minSize ≤ w.length)).map (List.map toUpperGo) := by
  intro ws
  induction ws with
  | nil => intro acc; simp
  | cons w rest ih =>
    intro acc
    by_cases h : minSize ≤ w.length
    · simp [List.foldl_cons, List.filter_cons, h, ih, List.append_assoc]
    · simp [List.foldl_cons, List.filter_cons, h, ih]

/-- C5: the dictionary filter keeps exactly the uppercased forms of the
words whose length is at least the minimum, in order, with no
deduplication; in particular `filter(["abc","abcd","ab"], 3)` is exactly
`["ABC","ABCD"]`. -/
theorem c5_dictionary_filter :
    (∀ (words : List (List Char)) (minSize : Nat),
      filterWords words minSize =
        (words.filter (fun w => minSize ≤ w.length)).map (List.map toUpperGo)) ∧
    filterWords ["abc".data, "abcd".data, "ab".data] 3 =
      ["ABC".data, "ABCD".data] := by
  constructor
  · intro words minSize
    rw [filterWords, filterWords_foldl, List.nil_append]
  · decide

/-- C6: for every candidate, one pass of the search worker's word loop
emits at most one value: it emits exactly one when some word is a prefix
of the onion and none otherwise, and it stops at the first matching word
without scanning the rest. -/
theorem c6_single_emission {α : Type} (r : α) (onion : List Char)
    (words : List (List Char)) :
    searchIter r onion words =
      (if words.any (fun w => startsWithGo onion w) then [r] else []) ∧
    (searchIter r onion words).length ≤ 1 ∧
    (∀ w rest, startsWithGo onion w = true →
      searchIter r onion (w :: rest) = [r]) := by
  have hmain : searchIter r onion words =
      (if words.any (fun w => startsWithGo onion w) then [r] else []) := by
    induction words with
    | nil => rfl
    | cons w rest ih =>
      by_cases h : startsWithGo onion w
      · simp [searchIter, h]
      · simp [searchIter, h, ih]
  refine ⟨hmain, ?_, fun w rest hw => by simp [searchIter, hw]⟩
  rw [hmain]
  by_cases h : words.any (fun w => startsWithGo onion w) <;> simp [h]

/-- C6 witness: a candidate matched by two dictionary words still yields
a single emission. -/
theorem c6_single_emission_witness :
    searchIter (0 : Nat) "TESTABC".data ("TE".data :: ["TEST".data]) = [0] :=
  (c6_single_emission (0 : Nat) "TESTABC".data []).2.2 "TE".data
    ["TEST".data] (by decide)

/-- C7 counterexample: supplying both `--file` and `--url` does not
prevent the search from starting — the code proceeds with the file
source. -/
theorem c7_both_sources_counterexample :
    dictArbitration "a".data "b".data = some (Sum.inl "a".data) ∧
    dictArbitration "a".data "b".data ≠ none := by
  decide

/-- C7 (amended): at least one of `--file`/`--url` must be supplied;
supplying neither prints the usage message and exits before any search
starts, supplying a file starts the search from the file (also when a URL
is supplied too), and supplying only a URL starts it from the URL. -/
theorem c7_dict_arbitration (dictFile dictUrl : List Char) :
    (dictArbitration dictFile dictUrl = none ↔ dictFile = [] ∧ dictUrl = []) ∧
    (dictFile ≠ [] →
      dictArbitration dictFile dictUrl = some (Sum.inl dictFile)) ∧
    (dictFile = [] → dictUrl ≠ [] →
      dictArbitration dictFile dictUrl = some (Sum.inr dictUrl)) := by
  rw [dictArbitration]
  rcases dictFile with _ | ⟨c, cs⟩ <;> rcases dictUrl with _ | ⟨d, ds⟩ <;>
    simp

/-- C7 witness: concrete instances of the amended arbitration. -/
theorem c7_dict_arbitration_witness :
    dictArbitration "a".data [] = some (Sum.inl "a".data) ∧
    dictArbitration [] [] = none :=
  ⟨(c7_dict_arbitration "a".data []).2.1 (by decide),
   (c7_dict_arbitration [] []).1.mpr ⟨rfl, rfl⟩⟩

/-- C8: the generation error is discarded by both generators, so on a
failing `GenerateKey` call the RSA worker dereferences the nil key and
panics (terminating, not continuing), and the ed25519 worker constructs a
result from nil key material — the code does not discard-and-retry as the
spec requires. -/
theorem c8_keygen_failure_ignored :
    (∀ (K : Type) (sha1 : List Nat → List Nat) (derPubOf : K → List Nat),
      randRsaResultGo KeyGenOutcome.err sha1 derPubOf = Except.error ()) ∧
    (∀ sha3 : List Nat → List Nat,
      randEd25519ResultGo KeyGenOutcome.err sha3 =
        ([], ed25519ToOnion sha3 [])) :=
  ⟨fun _ _ _ => rfl, fun _ => rfl⟩

/-- C9: the sink prints the lowercase Identifier, writes
`./keys/<lowercase identifier>.onion` whose entire content is the tagged
private-key string, and syncs the file; the older `Search` enqueues the
lowercase Identifier. -/
theorem c9_result_sink :
    (∀ onion privateKey : List Char,
      resultSink onion privateKey =
        { printed := onion.map toLowerGo
          filePath := "./keys/".data ++ onion.map toLowerGo ++ ".onion".data
          fileContent := privateKey
          synced := true }) ∧
    (∀ (K : Type) (marshal : K → List Nat) (k : K) (onion : List Char),
      (resultSink onion (rsaPrivateKeyExport marshal k)).fileContent =
        "RSA1024:".data ++ b64EncodeGo (marshal k)) ∧
    (∀ (K : Type) (key : K) (onion : List Char),
      (searchEmitV1 key onion).2 = onion.map toLowerGo) :=
  ⟨fun _ _ => rfl, fun _ _ _ _ => rfl, fun _ _ _ => rfl⟩

/-- C10: `--key` dispatch is case-insensitive with default `rsa`: the
value is lowercased before comparison, any case variant of `rsa` or
`ed25519` selects the matching generator, and exactly the values whose
lowercase form is neither are fatal. -/
theorem c10_key_selection :
    (∀ s : List Char,
      chooseKeyFunc s = KeyChoice.ed25519 ↔ s.map toLowerGo = "ed25519".data) ∧
    (∀ s : List Char,
      chooseKeyFunc s = KeyChoice.rsa ↔ s.map toLowerGo = "rsa".data) ∧
    (∀ s : List Char,
      chooseKeyFunc s = KeyChoice.fatal ↔
        (s.map toLowerGo ≠ "ed25519".data ∧ s.map toLowerGo ≠ "rsa".data)) ∧
    chooseKeyFunc "rsa".data = KeyChoice.rsa ∧
    chooseKeyFunc "RSA".data = KeyChoice.rsa ∧
    chooseKeyFunc "Ed25519".data = KeyChoice.ed25519 ∧
    chooseKeyFunc "ED25519".data = KeyChoice.ed25519 ∧
    chooseKeyFunc "dsa".data = KeyChoice.fatal := by
  have hed : ∀ s : List Char,
      chooseKeyFunc s = KeyChoice.ed25519 ↔ s.map toLowerGo = "ed25519".data := by
    intro s
    rw [chooseKeyFunc]
    by_cases h1 : s.map toLowerGo = "ed25519".data
    · simp [h1]
    · simp only [h1, if_false, iff_false]
      by_cases h2 : s.map toLowerGo = "rsa".data <;> simp [h2]
  have hrsa : ∀ s : List Char,
      chooseKeyFunc s = KeyChoice.rsa ↔ s.map toLowerGo = "rsa".data := by
    intro s
    rw [chooseKeyFunc]
    by_cases h1 : s.map toLowerGo = "ed25519".data
    · simp [h1]
    · simp only [h1, if_false]
      by_cases h2 : s.map toLowerGo = "rsa".data <;> simp [h2]
  have hfatal : ∀ s : List Char,
      chooseKeyFunc s = KeyChoice.fatal ↔
        (s.map toLowerGo ≠ "ed25519".data ∧ s.map toLowerGo ≠ "rsa".data) := by
    intro s
    rw [chooseKeyFunc]
    by_cases h1 : s.map toLowerGo = "ed25519".data
    · simp [h1]
    · simp only [h1, if_false]
      by_cases h2 : s.map toLowerGo = "rsa".data <;> simp [h1, h2]
  exact ⟨hed, hrsa, hfatal, by decide, by decide, by decide, by decide, by decide⟩

/-- C10 witness: a mixed-case value selects the RSA generator. -/
theorem c10_key_selection_witness :
    chooseKeyFunc "Rsa".data = KeyChoice.rsa :=
  (c10_key_selection.2.1 "Rsa".data).mpr (by decide)

end Onions
